import Mathlib

/-!
Verification of the rbdc core against its specification.

Shallow embedding of:
* the MySQL text-protocol row decoder (`TextRow::decode_with`,
  rbdc-mysql/src/protocol/text/row.rs);
* the MySQL binary temporal codec (`DateTime`/`Timestamp` encode/decode,
  rbdc-mysql/src/types/datetime.rs and timestamp.rs);
* the SQLite statement store (`Statements`, rbdc-sqlite/src/connection/mod.rs)
  and the `ConnectionState` drop order;
* the pool `ConnectionGuard` drop (src/pool/guard.rs);
* the `Decimal` wrapper (src/types/decimal.rs).

Bytes are modelled as `Nat` (each in `0..256` where it matters), byte buffers as
`List Nat`.  A Rust panic (out-of-bounds index / arithmetic overflow) is
modelled by a dedicated `fatal` outcome or by `Option.none`, clearly noted at
each definition.
-/

namespace Rbdc

/-- rbdc::Error, restricted to the error kinds exercised by these claims.
`protocol` is `Error::protocol(msg)`. -/
inductive Error where
  | protocol (msg : String)
deriving DecidableEq

/-- A MySQL result-set column.  `TextRow::decode_with` only iterates over the
column list (`for _ in columns`), so the descriptor content is irrelevant; we
keep the name. -/
structure MySqlColumn where
  name : String
deriving DecidableEq

/-- Lower-case hex digit of `n % 16`, as produced by Rust's `{:x}` formatting. -/
def hexDigit (n : Nat) : Char :=
  match n % 16 with
  | 0 => '0' | 1 => '1' | 2 => '2' | 3 => '3' | 4 => '4'
  | 5 => '5' | 6 => '6' | 7 => '7' | 8 => '8' | 9 => '9'
  | 10 => 'a' | 11 => 'b' | 12 => 'c' | 13 => 'd' | 14 => 'e'
  | _ => 'f'

/-- Rust's `{:02x}` rendering of a byte. -/
def hexByte (b : Nat) : String :=
  String.mk [hexDigit (b / 16), hexDigit b]

/-- The exact message built by the bounds check of `TextRow::decode_with`:
`format!("text row column length {} exceeds remaining {} bytes (first byte: 0x{:02x})", size, buf.len(), storage[offset])`. -/
def text_row_err_msg (size rem first : Nat) : String :=
  "text row column length " ++ toString size ++ " exceeds remaining " ++
    toString rem ++ " bytes (first byte: 0x" ++ hexByte first ++ ")"

/-- Modelled from the spec: `MySqlBufExt::get_uint_lenenc`
(rbdc-mysql/src/io, absent from src/).  Spec 4.B: "0..250 → 1 byte; 0xFC
prefix + u16; 0xFD prefix + u24; 0xFE prefix + u64.  Decoder must advance
exactly those bytes."  Little-endian multi-byte integers.  `none` models the
Rust panic of reading a fixed-width integer past the end of the buffer. -/
def get_uint_lenenc : List Nat → Option (Nat × List Nat)
  | [] => none
  | b :: rest =>
    if b = 0xfc then
      match rest with
      | a0 :: a1 :: t => some (a0 + 256 * a1, t)
      | _ => none
    else if b = 0xfd then
      match rest with
      | a0 :: a1 :: a2 :: t => some (a0 + 256 * a1 + 65536 * a2, t)
      | _ => none
    else if b = 0xfe then
      match rest with
      | a0 :: a1 :: a2 :: a3 :: a4 :: a5 :: a6 :: a7 :: t =>
        some (a0 + 256 * a1 + 65536 * a2 + 16777216 * a3 + 2 ^ 32 * a4 +
          2 ^ 40 * a5 + 2 ^ 48 * a6 + 2 ^ 56 * a7, t)
      | _ => none
    else some (b, rest)

/-- Modelled from the spec: `put_uint_lenenc` (spec 4.B), the length-encoded
integer encoder, used here to describe well-formed text rows. -/
def put_uint_lenenc (n : Nat) : List Nat :=
  if n < 251 then [n]
  else if n < 65536 then [0xfc, n % 256, n / 256 % 256]
  else if n < 16777216 then [0xfd, n % 256, n / 256 % 256, n / 65536 % 256]
  else [0xfe, n % 256, n / 256 % 256, n / 65536 % 256, n / 16777216 % 256,
    n / 2 ^ 32 % 256, n / 2 ^ 40 % 256, n / 2 ^ 48 % 256, n / 2 ^ 56 % 256]

/-- Outcome of the per-column loop of `TextRow::decode_with`.
`fatal` models a Rust panic (an out-of-bounds index such as `buf[0]` on an
empty buffer, a short fixed-width read inside `get_uint_lenenc`, or
`storage[offset]` past the snapshot). -/
inductive AuxResult where
  | fatal
  | err (e : Error)
  | ok (values : List (Option (Nat × Nat)))
deriving DecidableEq

/-- Result of `TextRow::decode_with`: either a panic, an `Err`, or the row --
the per-column cells (`None` or a byte range `offset..offset+size`) together
with the retained storage snapshot. -/
inductive TextRowResult where
  | fatal
  | err (e : Error)
  | ok (values : List (Option (Nat × Nat))) (storage : List Nat)
deriving DecidableEq

/-- The column loop of `TextRow::decode_with`
(rbdc-mysql/src/protocol/text/row.rs, lines 19-41).  `storage` is the snapshot
taken at entry (`buf.clone()`); the per-cell `offset` is
`storage.len() - buf.len()` computed after the length prefix has been
consumed, exactly as in the source (the outer `offset` variable is the

original total length). -/
def decode_with_loop (storage : List Nat) : List MySqlColumn → List Nat → AuxResult
  | [], _ => .ok []
  | _ :: cols, buf =>
    match buf with
    | [] => .fatal
    | b :: rest =>
      if b = 0xfb then
        match decode_with_loop storage cols rest with
        | .ok vs => .ok (none :: vs)
        | r => r
      else
        match get_uint_lenenc (b :: rest) with
        | none => .fatal
        | some (size, rest2) =>
          let offset := storage.length - rest2.length
          if size > rest2.length then
            match storage[offset]? with
            | none => .fatal
            | some first => .err (.protocol (text_row_err_msg size rest2.length first))
          else
            match decode_with_loop storage cols (rest2.drop size) with
            | .ok vs => .ok (some (offset, offset + size) :: vs)
            | r => r

/-- `TextRow::decode_with(buf, columns)`.  The snapshot `storage` is the whole
input buffer. -/
def decode_with (buf : List Nat) (columns : List MySqlColumn) : TextRowResult :=
  match decode_with_loop buf columns buf with
  | .fatal => .fatal
  | .err e => .err e
  | .ok vs => .ok vs buf

/-- A well-formed text-row cell: `none` is the single NULL byte `0xFB`, a
non-NULL cell is its length-encoded size followed by its bytes (spec 4.D). -/
def encode_cell : Option (List Nat) → List Nat
  | none => [0xfb]
  | some b => put_uint_lenenc b.length ++ b

/-- A well-formed text-row buffer: the concatenation of its cells. -/
def encode_row : List (Option (List Nat)) → List Nat
  | [] => []
  | c :: cs => encode_cell c ++ encode_row cs

/-- The cell ranges `decode_with` produces for a well-formed row whose first
cell starts at absolute offset `off` of the snapshot: `none` for NULL cells,
and for a cell of bytes `b` the range covering exactly those payload bytes. -/
def expected_values (off : Nat) : List (Option (List Nat)) → List (Option (Nat × Nat))
  | [] => []
  | none :: cs => none :: expected_values (off + 1) cs
  | some b :: cs =>
    let o := off + (put_uint_lenenc b.length).length
    some (o, o + b.length) :: expected_values (o + b.length) cs

/-- Prepend already-decoded cells to a loop outcome (panics and errors pass
through). -/
def AuxResult.cons_all (vs : List (Option (Nat × Nat))) : AuxResult → AuxResult
  | .ok ws => .ok (vs ++ ws)
  | r => r

/-! ## MySQL binary temporal codec -/

/-- fastdate::Date: a broken-down calendar date (year is a u16 on the wire). -/
structure FDate where
  year : Nat
  mon : Nat
  day : Nat
deriving DecidableEq

/-- fastdate::Time: a broken-down time of day with nanoseconds. -/
structure FTime where
  hour : Nat
  minute : Nat
  sec : Nat
  nano : Nat
deriving DecidableEq

/-- A broken-down datetime (the accessor view of fastdate::DateTime used by
the encoders). -/
structure FDateTime where
  year : Nat
  mon : Nat
  day : Nat
  hour : Nat
  minute : Nat
  sec : Nat
  nano : Nat
deriving DecidableEq

/-- Little-endian bytes of a u16. -/
def u16_le (n : Nat) : List Nat := [n % 256, n / 256 % 256]

/-- Little-endian bytes of a u32. -/
def u32_le (n : Nat) : List Nat :=
  [n % 256, n / 256 % 256, n / 65536 % 256, n / 16777216 % 256]

/-- `date_time_size_hint` (identical in datetime.rs and timestamp.rs): the
length byte of the binary DATETIME/TIMESTAMP encoding, classified from the
time components. -/
def date_time_size_hint : Nat → Nat → Nat → Nat → Nat
  | 0, 0, 0, 0 => 4
  | _, _, _, 0 => 7
  | _, _, _, _ => 11

/-- Modelled from the spec: `impl Encode for Date`
(rbdc-mysql/src/types/date.rs, absent from src/).  Spec 4.D.1: the binary DATE
payload is year(u16 LE), month(u8), day(u8), and "it reuses a Date encoder
whose own output carries a leading length byte" -- so the encoder writes the
length byte `4` followed by the 4 payload bytes and returns the payload
length 4.  Returns (buffer after the writes, returned size). -/
def Date.encode (d : FDate) (buf : List Nat) : List Nat × Nat :=
  (buf ++ 4 :: (u16_le d.year ++ [d.mon, d.day]), 4)

/-- Modelled from the spec: `impl Encode for fastdate::Time`
(rbdc-mysql/src/types/time.rs, absent from src/).  Spec 4.D.1 prescribes a
"length-prefixed compact encoding" for TIME as for the other temporals; the
MySQL binary TIME payload is sign(u8), days(u32 LE), hour, minute, second,
plus microseconds(u32 LE) when nonzero, with length byte 0 (all components
zero), 8 (no sub-second part) or 12.  This is the only shape consistent with
the splice in `DateTime::encode` (which, in src/, removes exactly the 6
leading bytes -- length, sign, days -- when the returned length exceeds 6) and
with the spec's authoritative DATETIME byte sequences.  Returns (buffer after
the writes, returned length). -/
def Time.encode (t : FTime) (buf : List Nat) : List Nat × Nat :=
  let len : Nat :=
    if t.hour = 0 ∧ t.minute = 0 ∧ t.sec = 0 ∧ t.nano = 0 then 0
    else if t.nano = 0 then 8 else 12
  let buf := buf ++ [len]
  let buf := if 0 < len then buf ++ 0 :: (u32_le 0 ++ [t.hour, t.minute, t.sec]) else buf
  let buf := if 8 < len then buf ++ u32_le (t.nano / 1000) else buf
  (buf, len)

/-- `for _ in 0..n { buf.remove(i) }`: remove `n` elements at index `i`. -/
def remove_times : List Nat → Nat → Nat → List Nat
  | buf, _, 0 => buf
  | buf, i, n + 1 => remove_times (buf.eraseIdx i) i n

/-- `impl Encode for DateTime` (rbdc-mysql/src/types/datetime.rs, lines 8-44):
push the classified length byte, splice in the Date encoder's payload (its own
leading length byte is removed), and if the time is present splice in the Time
encoder's payload (its leading length, sign and days bytes -- 6 bytes -- are
removed when its returned length exceeds 6).  Returns (buffer, returned
size). -/
def DateTime.encode (dt : FDateTime) (buf : List Nat) : List Nat × Nat :=
  let datetime_size := date_time_size_hint dt.hour dt.minute dt.sec dt.nano
  let buf := buf ++ [datetime_size]
  let r := Date.encode ⟨dt.year, dt.mon, dt.day⟩ buf
  let buf := r.1
  let size := r.2
  let buf := buf.eraseIdx (buf.length - (size + 1))
  if 4 < datetime_size then
    let before_len := buf.length
    let r2 := Time.encode ⟨dt.hour, dt.minute, dt.sec, dt.nano⟩ buf
    let buf := r2.1
    let encode_len := r2.2
    let buf := if 6 < encode_len then remove_times buf before_len 6 else buf
    let after_len := buf.length
    (buf, 1 + size + (after_len - before_len))
  else
    (buf, 1 + size)

/-- `impl Encode for Timestamp` (rbdc-mysql/src/types/timestamp.rs, lines
11-41), starting from the broken-down datetime obtained from the Unix
millisecond value (the `fastdate` conversion itself is an external-crate
computation and is not embedded; the claim quantifies over the broken-down
components).  After each of the Date/Time encoders runs, exactly one byte --
the nested length byte -- is removed at `buf.len() - 1 - size`.  Returns
(buffer, returned size). -/
def Timestamp.encode_dt (datetime : FDateTime) (buf : List Nat) : List Nat × Nat :=
  let size := date_time_size_hint datetime.hour datetime.minute datetime.sec datetime.nano
  let buf := buf ++ [size]
  let r := Date.encode ⟨datetime.year, datetime.mon, datetime.day⟩ buf
  let buf := r.1
  let size_date := r.2
  let buf := buf.eraseIdx (buf.length - 1 - size_date)
  if 4 < size + size_date then
    let r2 := Time.encode ⟨datetime.hour, datetime.minute, datetime.sec, datetime.nano⟩ buf
    let buf := r2.1
    let size_time := r2.2
    let buf := buf.eraseIdx (buf.length - 1 - size_time)
    (buf, size + size_date + size_time)
  else
    (buf, size + size_date + 0)

/-- Modelled from the spec: `decode_date_buf` (rbdc-mysql/src/types/date.rs,
absent from src/).  Spec 4.D.1 decoding: an absent date payload (length byte
0) yields the zero date, otherwise the date is year(u16 LE), month, day from
the next 4 bytes.  `none` models the index panic on a 1..3-byte slice. -/
def decode_date_buf : List Nat → Option FDate
  | [] => some ⟨0, 0, 0⟩
  | b0 :: b1 :: b2 :: b3 :: _ => some ⟨b0 + 256 * b1, b2, b3⟩
  | _ => none

/-- Modelled from the spec: `decode_time` (rbdc-mysql/src/types/time.rs,
absent from src/).  Spec 4.D.1 decoding: hour, minute, second from 3 bytes,
then microseconds(u32 LE) when they were sent (the callers pass the slice
starting right after the date payload, so the microseconds are present exactly
when the slice has at least 7 bytes).  `none` models the index panic on a
slice shorter than 3 bytes. -/
def decode_time : List Nat → Option FTime
  | h :: mi :: s :: rest =>
    let micros :=
      match rest with
      | m0 :: m1 :: m2 :: m3 :: _ => m0 + 256 * m1 + 65536 * m2 + 16777216 * m3
      | _ => 0
    some ⟨h, mi, s, micros * 1000⟩
  | _ => none

/-- The `MySqlValueFormat::Binary` arm of `impl Decode for DateTime`
(rbdc-mysql/src/types/datetime.rs, lines 55-72): read the length byte, decode
the date from `buf[1..]`, decode the time from `buf[5..]` when the length
byte exceeds 4.  The decoded triple is what the source hands to
`fastdate::DateTime::from((date, time, offset_sec))` (an external-crate
conversion, not embedded).  `none` models a panic (`buf[0]` on an empty
buffer, or a short slice inside the helpers). -/
def DateTime.decode_binary (buf : List Nat) (offset_sec : Int) :
    Option (FDate × FTime × Int) :=
  match buf with
  | [] => none
  | len :: rest =>
    match decode_date_buf rest with
    | none => none
    | some date =>
      if 4 < len then
        match decode_time (buf.drop 5) with
        | none => none
        | some time => some (date, time, offset_sec)
      else
        some (date, ⟨0, 0, 0, 0⟩, offset_sec)

/-- The `MySqlValueFormat::Binary` arm of `impl Decode for Timestamp`
(rbdc-mysql/src/types/timestamp.rs, lines 49-66): identical length-byte
handling; the decoded pair is what the source hands to
`fastdate::DateTime::from((date, time)).unix_timestamp_millis()`. -/
def Timestamp.decode_binary (buf : List Nat) : Option (FDate × FTime) :=
  match buf with
  | [] => none
  | len :: rest =>
    match decode_date_buf rest with
    | none => none
    | some date =>
      if 4 < len then
        match decode_time (buf.drop 5) with
        | none => none
        | some time => some (date, time)
      else
        some (date, ⟨0, 0, 0, 0⟩)

/-! ## SQLite statement store and connection-state drop -/

/-- A prepared statement handle.  `reset_count` records how often
`VirtualStatement::reset` has run, so that "reset before reuse" is
observable. -/
structure VirtualStatement where
  query : String
  persistent : Bool
  reset_count : Nat
deriving DecidableEq

/-- `VirtualStatement::new(query, persistent)`: a fresh statement. -/
def VirtualStatement.new (query : String) (persistent : Bool) : VirtualStatement :=
  ⟨query, persistent, 0⟩

/-- `VirtualStatement::reset`. -/
def VirtualStatement.reset (s : VirtualStatement) : VirtualStatement :=
  { s with reset_count := s.reset_count + 1 }

/-- Modelled from the spec: `rbdc::StatementCache` (absent from src/).
Spec 3: "bounded LRU from SQL text → prepared statement ... eviction on
insert at capacity is strict LRU; disabled capacity 0".  `entries` is ordered
most-recently-used first. -/
structure StatementCache where
  capacity : Nat
  entries : List (String × VirtualStatement)
deriving DecidableEq

/-- `StatementCache::is_enabled`: the cache acts only with nonzero
capacity. -/
def StatementCache.is_enabled (c : StatementCache) : Bool :=
  c.capacity != 0

/-- Key lookup in the LRU entry list. -/
def lookup_stmt : List (String × VirtualStatement) → String → Option VirtualStatement
  | [], _ => none
  | (k, v) :: es, q => if k = q then some v else lookup_stmt es q

/-- `StatementCache::contains_key`. -/
def StatementCache.contains_key (c : StatementCache) (q : String) : Bool :=
  (lookup_stmt c.entries q).isSome

/-- `StatementCache::insert`: put the entry in the most-recent slot and evict
the least-recently-used entries beyond capacity (strict LRU, spec 3). -/
def StatementCache.insert (c : StatementCache) (q : String) (v : VirtualStatement) :
    StatementCache :=
  { c with entries := ((q, v) :: c.entries.filter (fun e => e.1 != q)).take c.capacity }

/-- `StatementCache::clear`. -/
def StatementCache.clear (c : StatementCache) : StatementCache :=
  { c with entries := [] }

/-- The `Statements` store of a SQLite connection
(rbdc-sqlite/src/connection/mod.rs): the semi-persistent LRU cache plus the
single scratch slot for non-persistent statements. -/
structure Statements where
  cached : StatementCache
  temp : Option VirtualStatement
deriving DecidableEq

/-- `Statements::get` (rbdc-sqlite/src/connection/mod.rs, lines 221-241).
Non-persistent lookups, or any lookup with the cache disabled, prepare into
the scratch slot (`self.temp.insert(...)` drops the previous scratch
statement).  Otherwise a missing entry is prepared and inserted; the entry is
fetched (`get_mut`, which also moves it to the most-recent slot) and, when it
already existed, reset before being returned. -/
def Statements.get (st : Statements) (query : String) (persistent : Bool) :
    Statements × VirtualStatement :=
  if !persistent || !st.cached.is_enabled then
    let v := VirtualStatement.new query false
    ({ st with temp := some v }, v)
  else
    let exists_ := st.cached.contains_key query
    let cached :=
      if exists_ then st.cached
      else st.cached.insert query (VirtualStatement.new query true)
    let stmt0 := (lookup_stmt cached.entries query).getD (VirtualStatement.new query true)
    let stmt := if exists_ then stmt0.reset else stmt0
    let cached2 :=
      { cached with entries := (query, stmt) :: cached.entries.filter (fun e => e.1 != query) }
    ({ st with cached := cached2 }, stmt)

/-- `Statements::clear` (rbdc-sqlite/src/connection/mod.rs, lines 247-250). -/
def Statements.clear (st : Statements) : Statements :=
  { st with cached := st.cached.clear, temp := none }

/-- The SQLite connection handle (opaque: only its identity matters for the
drop-order claim). -/
structure ConnectionHandle where
  id : Nat
deriving DecidableEq

/-- `ConnectionState`: the handle and the statement store, in the source's
field declaration order (`handle` first, then `statements`). -/
structure ConnectionState where
  handle : ConnectionHandle
  statements : Statements
deriving DecidableEq

/-- Observable events of dropping a `ConnectionState`: a prepared statement
being finalized, or the connection handle being destroyed. -/
inductive DropEvent where
  | release_stmt (s : VirtualStatement)
  | drop_handle (h : ConnectionHandle)
deriving DecidableEq

/-- Every statement held by the store: the cached ones (most-recent first)
then the scratch one. -/
def Statements.all_statements (st : Statements) : List VirtualStatement :=
  st.cached.entries.map Prod.snd ++ st.temp.toList

/-- The statement releases performed by `Statements::clear`: dropping the
cache entries and the scratch statement. -/
def Statements.clear_events (st : Statements) : List DropEvent :=
  st.all_statements.map DropEvent.release_stmt

/-- The event trace of `impl Drop for ConnectionState`
(rbdc-sqlite/src/connection/mod.rs, lines 206-211): the explicit
`self.statements.clear()` in the `Drop` body releases every statement; then
Rust drops the fields in declaration order -- the handle first, then the
(now cleared) statement store, which releases whatever it still holds. -/
def ConnectionState.drop_trace (cs : ConnectionState) : List DropEvent :=
  cs.statements.clear_events ++
    ([DropEvent.drop_handle cs.handle] ++ (cs.statements.clear).clear_events)

/-! ## Pool connection guard -/

/-- A pooled database connection (opaque). -/
structure Conn where
  id : Nat
deriving DecidableEq

/-- `ConnectionGuard` (src/pool/guard.rs): the wrapped connection and the
optional auto-close duration (milliseconds). -/
structure ConnectionGuard where
  conn : Option Conn
  auto_close : Option Nat
deriving DecidableEq

/-- The effect spawned by the guard's `Drop` impl:
`tokio::time::timeout(auto_close, conn.close())` run as a detached task. -/
inductive SpawnedTask where
  | timeout_close (duration : Nat) (conn : Conn)
deriving DecidableEq

/-- `impl Drop for ConnectionGuard` (src/pool/guard.rs, lines 39-49): when an
auto-close duration is configured and a connection is present, `take()` the
connection out of the guard and spawn the bounded close task; otherwise do
nothing.  Returns the guard after the drop body and the spawned task, if
any. -/
def ConnectionGuard.drop (g : ConnectionGuard) : ConnectionGuard × Option SpawnedTask :=
  match g.auto_close with
  | some auto_close =>
    match g.conn with
    | some conn => ({ g with conn := none }, some (.timeout_close auto_close conn))
    | none => (g, none)
  | none => (g, none)

/-! ## Decimal -/

/-- The state of a `bigdecimal::BigDecimal`: an arbitrary-precision integer
and a decimal scale (the value is `int_val * 10 ^ (-scale)`). -/
structure BigDecimal where
  int_val : Int
  scale : Int
deriving DecidableEq

/-- Modelled from the spec: `bigdecimal::BigDecimal::with_scale`, the imported
arbitrary-precision decimal operation that `Decimal::with_scale`
(src/types/decimal.rs, lines 37-43) forwards to.  Its documented behaviour --
restated by the source's own doc comment "If the new_scale is lower than the
current value ..., digits will be dropped (as precision is lower)" -- is:
scale widening multiplies the integer by a power of ten, scale narrowing
divides it (BigInt division, i.e. truncation toward zero), zero keeps integer
zero. -/
def BigDecimal.with_scale (x : BigDecimal) (new_scale : Int) : BigDecimal :=
  if x.int_val = 0 then ⟨0, new_scale⟩
  else if x.scale < new_scale then
    ⟨x.int_val * (10 : Int) ^ (new_scale - x.scale).toNat, new_scale⟩
  else if new_scale < x.scale then
    ⟨x.int_val.tdiv ((10 : Int) ^ (x.scale - new_scale).toNat), new_scale⟩
  else x

/-- `rbdc::types::decimal::Decimal`, the newtype over `BigDecimal`. -/
structure Decimal where
  val : BigDecimal
deriving DecidableEq

/-- `Decimal::with_scale` (src/types/decimal.rs, lines 37-43): forwards to the
inner `BigDecimal`. -/
def Decimal.with_scale (d : Decimal) (arg : Int) : Decimal :=
  ⟨d.val.with_scale arg⟩

/-- The spec's asserted semantics for scale narrowing: round the dropped
digits half-away-from-zero ("half-away-from-zero rounding on scale
narrowing", spec 9).  Written from the spec's words, to be compared with the
source-derived `with_scale`. -/
def spec_half_away_narrow (x : BigDecimal) (new_scale : Int) : BigDecimal :=
  let k : Nat := 10 ^ (x.scale - new_scale).toNat
  ⟨x.int_val.sign * (((x.int_val.natAbs + k / 2) / k : Nat) : Int), new_scale⟩

/-! ## Helper lemmas -/

/-- Removing the element right after a prefix of known length. -/
lemma eraseIdx_append_cons (l : List Nat) (x : Nat) (r : List Nat) :
    (l ++ x :: r).eraseIdx l.length = l ++ r := by
  rw [List.eraseIdx_append_of_length_le (Nat.le_refl _)]
  simp

/-- The length-encoded integer codec round-trips and consumes exactly the
prefix it wrote. -/
lemma get_put_uint_lenenc (n : Nat) (hn : n < 2 ^ 64) (t : List Nat) :
    get_uint_lenenc (put_uint_lenenc n ++ t) = some (n, t) := by
  by_cases h1 : n < 251
  · have h2 : n ≠ 0xfc := by omega
    have h3 : n ≠ 0xfd := by omega
    have h4 : n ≠ 0xfe := by omega
    simp [put_uint_lenenc, get_uint_lenenc, h1, h2, h3, h4]
  · by_cases h5 : n < 65536
    · simp [put_uint_lenenc, get_uint_lenenc, h1, h5]
      omega
    · by_cases h6 : n < 16777216
      · simp [put_uint_lenenc, get_uint_lenenc, h1, h5, h6]
        omega
      · simp [put_uint_lenenc, get_uint_lenenc, h1, h5, h6]
        omega

/-- A length-encoded prefix is nonempty and never starts with the NULL
sentinel `0xFB` (values up to 250 are encoded directly, larger values start
with `0xFC`, `0xFD` or `0xFE`). -/
lemma put_uint_lenenc_ne_null (n : Nat) :
    ∃ h t2, put_uint_lenenc n = h :: t2 ∧ h ≠ 0xfb := by
  unfold put_uint_lenenc
  by_cases h1 : n < 251
  · exact ⟨n, [], by simp [h1], by omega⟩
  · by_cases h5 : n < 65536
    · exact ⟨0xfc, [n % 256, n / 256 % 256], by simp [h1, h5], by omega⟩
    · by_cases h6 : n < 16777216
      · exact ⟨0xfd, [n % 256, n / 256 % 256, n / 65536 % 256], by simp [h1, h5, h6], by omega⟩
      · exact ⟨0xfe, [n % 256, n / 256 % 256, n / 65536 % 256, n / 16777216 % 256,
          n / 2 ^ 32 % 256, n / 2 ^ 40 % 256, n / 2 ^ 48 % 256, n / 2 ^ 56 % 256],
          by simp [h1, h5, h6], by omega⟩

/-- Unfolding the loop at a NULL cell. -/
lemma decode_loop_null (storage : List Nat) (col : MySqlColumn) (cols : List MySqlColumn)
    (rest : List Nat) :
    decode_with_loop storage (col :: cols) (0xfb :: rest) =
      match decode_with_loop storage cols rest with
      | .ok vs => .ok (none :: vs)
      | r => r := rfl

/-- Unfolding the loop at a non-NULL cell. -/
lemma decode_loop_cell (storage : List Nat) (col : MySqlColumn) (cols : List MySqlColumn)
    (b : Nat) (rest : List Nat) (hb : ¬ b = 0xfb) :
    decode_with_loop storage (col :: cols) (b :: rest) =
      match get_uint_lenenc (b :: rest) with
      | none => .fatal
      | some (size, rest2) =>
        if size > rest2.length then
          match storage[storage.length - rest2.length]? with
          | none => .fatal
          | some first => .err (.protocol (text_row_err_msg size rest2.length first))
        else
          match decode_with_loop storage cols (rest2.drop size) with
          | .ok vs =>
            .ok (some (storage.length - rest2.length, storage.length - rest2.length + size) :: vs)
          | r => r := by
  conv_lhs => rw [decode_with_loop]
  dsimp only
  rw [if_neg hb]

lemma cons_all_cons (v : Option (Nat × Nat)) (vs : List (Option (Nat × Nat))) (r : AuxResult) :
    (match AuxResult.cons_all vs r with
      | .ok ws => .ok (v :: ws)
      | x => x) = AuxResult.cons_all (v :: vs) r := by
  cases r <;> rfl

/-- Main loop invariant: decoding a buffer that starts with well-formed cells
consumes exactly those cells, emits their expected ranges, and continues with
the rest of the columns on the remaining suffix. -/
lemma decode_loop_append (cells : List (Option (List Nat))) (cols1 cols2 : List MySqlColumn)
    (storage suffix : List Nat)
    (hlen : cols1.length = cells.length)
    (hsz : ∀ b, some b ∈ cells → b.length < 2 ^ 64)
    (hbuf : (encode_row cells ++ suffix).length ≤ storage.length) :
    decode_with_loop storage (cols1 ++ cols2) (encode_row cells ++ suffix) =
      AuxResult.cons_all
        (expected_values (storage.length - (encode_row cells ++ suffix).length) cells)
        (decode_with_loop storage cols2 suffix) := by
  induction cells generalizing cols1 suffix with
  | nil =>
    have h0 : cols1 = [] := List.length_eq_zero.mp (by simpa using hlen)
    subst h0
    show decode_with_loop storage cols2 (encode_row [] ++ suffix) = _
    rw [show encode_row [] ++ suffix = suffix from rfl]
    cases decode_with_loop storage cols2 suffix <;> rfl
  | cons c cs ih =>
    obtain ⟨col, cols1', hcols⟩ : ∃ col cols1', cols1 = col :: cols1' := by
      cases cols1 with
      | nil => simp at hlen
      | cons a cb => exact ⟨a, cb, rfl⟩
    subst hcols
    have hlen' : cols1'.length = cs.length := by simpa using hlen
    have hsz' : ∀ b, some b ∈ cs → b.length < 2 ^ 64 := fun b hb => hsz b (by simp [hb])
    cases c with
    | none =>
      have hrow : encode_row (none :: cs) ++ suffix = 0xfb :: (encode_row cs ++ suffix) := by
        simp [encode_row, encode_cell]
      have hbuf' : (encode_row cs ++ suffix).length + 1 ≤ storage.length := by
        rw [hrow] at hbuf
        simpa using hbuf
      rw [hrow, List.cons_append, decode_loop_null,
        ih cols1' suffix hlen' hsz' (by omega), cons_all_cons]
      congr 1
      rw [show expected_values (storage.length - (0xfb :: (encode_row cs ++ suffix)).length)
            (none :: cs) =
          none :: expected_values
            (storage.length - (0xfb :: (encode_row cs ++ suffix)).length + 1) cs from rfl]
      congr 2
      simp only [List.length_cons]
      omega
    | some b =>
      have hblen : b.length < 2 ^ 64 := hsz b (by simp)
      have hrow : encode_row (some b :: cs) ++ suffix =
          put_uint_lenenc b.length ++ (b ++ (encode_row cs ++ suffix)) := by
        simp [encode_row, encode_cell]
      obtain ⟨hh, t2, hput, hne⟩ := put_uint_lenenc_ne_null b.length
      have hlput : (put_uint_lenenc b.length).length = t2.length + 1 := by rw [hput]; rfl
      have hbuf' : (put_uint_lenenc b.length).length + b.length +
          (encode_row cs ++ suffix).length ≤ storage.length := by
        rw [hrow] at hbuf
        simp only [List.length_append] at hbuf ⊢
        omega
      rw [hrow, hput]
      simp only [List.cons_append]
      rw [decode_loop_cell _ _ _ _ _ hne]
      rw [show hh :: (t2 ++ (b ++ (encode_row cs ++ suffix))) =
          put_uint_lenenc b.length ++ (b ++ (encode_row cs ++ suffix)) by rw [hput]; rfl]
      rw [get_put_uint_lenenc b.length hblen]
      dsimp only
      rw [if_neg (by simp)]
      rw [show List.drop b.length (b ++ (encode_row cs ++ suffix)) = encode_row cs ++ suffix from
        List.drop_left b (encode_row cs ++ suffix)]
      rw [ih cols1' suffix hlen' hsz' (by
        simp only [List.length_append] at hbuf' ⊢
        omega), cons_all_cons]
      congr 1
      rw [show expected_values (storage.length -
            (put_uint_lenenc b.length ++ (b ++ (encode_row cs ++ suffix))).length)
            (some b :: cs) =
          some (storage.length -
              (put_uint_lenenc b.length ++ (b ++ (encode_row cs ++ suffix))).length +
              (put_uint_lenenc b.length).length,
            storage.length -
              (put_uint_lenenc b.length ++ (b ++ (encode_row cs ++ suffix))).length +
              (put_uint_lenenc b.length).length + b.length) ::
            expected_values (storage.length -
              (put_uint_lenenc b.length ++ (b ++ (encode_row cs ++ suffix))).length +
              (put_uint_lenenc b.length).length + b.length) cs from rfl]
      congr 2
      · congr 1 <;>
          · simp only [List.length_append] at hbuf' ⊢
            omega
      · simp only [List.length_append] at hbuf' ⊢
        omega

/-- The ranges of `expected_values` recover each non-NULL cell's bytes from
the snapshot, and point at `none` for the NULL cells. -/
lemma expected_values_recover (cells : List (Option (List Nat))) (pre rest : List Nat) (i : Nat) :
    (cells[i]? = some none → (expected_values pre.length cells)[i]? = some none) ∧
    (∀ b, cells[i]? = some (some b) →
      ∃ o, (expected_values pre.length cells)[i]? = some (some (o, o + b.length)) ∧
        ((pre ++ (encode_row cells ++ rest)).drop o).take b.length = b) := by
  induction cells generalizing pre i with
  | nil => simp [expected_values]
  | cons c cs ih =>
    cases i with
    | zero =>
      cases c with
      | none => simp [expected_values]
      | some b =>
        refine ⟨by simp [expected_values], ?_⟩
        intro b' hb'
        simp only [List.getElem?_cons_zero, Option.some.injEq] at hb'
        subst hb'
        refine ⟨pre.length + (put_uint_lenenc b.length).length, by simp [expected_values], ?_⟩
        have hbuffer : pre ++ (encode_row (some b :: cs) ++ rest) =
            (pre ++ put_uint_lenenc b.length) ++ (b ++ (encode_row cs ++ rest)) := by
          simp [encode_row, encode_cell]
        rw [hbuffer, List.drop_left' (by simp), List.take_left]
    | succ j =>
      cases c with
      | none =>
        have h := ih (pre ++ [0xfb]) j
        have hbuffer : pre ++ (encode_row (none :: cs) ++ rest) =
            (pre ++ [0xfb]) ++ (encode_row cs ++ rest) := by
          simp [encode_row, encode_cell]
        constructor
        · intro hc
          simp only [List.getElem?_cons_succ] at hc ⊢
          rw [show expected_values pre.length (none :: cs) =
              none :: expected_values (pre.length + 1) cs from rfl]
          simp only [List.getElem?_cons_succ]
          have := h.1
          simp only [List.length_append, List.length_cons, List.length_nil] at this
          exact this hc
        · intro b hc
          simp only [List.getElem?_cons_succ] at hc ⊢
          rw [show expected_values pre.length (none :: cs) =
              none :: expected_values (pre.length + 1) cs from rfl]
          simp only [List.getElem?_cons_succ]
          obtain ⟨o, ho, hslice⟩ := h.2 b hc
          refine ⟨o, ?_, ?_⟩
          · simpa using ho
          · rw [hbuffer]
            exact hslice
      | some a =>
        have h := ih (pre ++ (put_uint_lenenc a.length ++ a)) j
        have hbuffer : pre ++ (encode_row (some a :: cs) ++ rest) =
            (pre ++ (put_uint_lenenc a.length ++ a)) ++ (encode_row cs ++ rest) := by
          simp [encode_row, encode_cell]
        have hplen : (pre ++ (put_uint_lenenc a.length ++ a)).length =
            pre.length + (put_uint_lenenc a.length).length + a.length := by
          simp
          omega
        constructor
        · intro hc
          simp only [List.getElem?_cons_succ] at hc ⊢
          rw [show expected_values pre.length (some a :: cs) =
              some (pre.length + (put_uint_lenenc a.length).length,
                pre.length + (put_uint_lenenc a.length).length + a.length) ::
                expected_values (pre.length + (put_uint_lenenc a.length).length + a.length) cs
              from rfl]
          simp only [List.getElem?_cons_succ]
          have := h.1
          rw [hplen] at this
          exact this hc
        · intro b hc
          simp only [List.getElem?_cons_succ] at hc ⊢
          rw [show expected_values pre.length (some a :: cs) =
              some (pre.length + (put_uint_lenenc a.length).length,
                pre.length + (put_uint_lenenc a.length).length + a.length) ::
                expected_values (pre.length + (put_uint_lenenc a.length).length + a.length) cs
              from rfl]
          simp only [List.getElem?_cons_succ]
          obtain ⟨o, ho, hslice⟩ := h.2 b hc
          rw [hplen] at ho
          refine ⟨o, ho, ?_⟩
          rw [hbuffer]
          exact hslice

lemma expected_values_length (off : Nat) (cells : List (Option (List Nat))) :
    (expected_values off cells).length = cells.length := by
  induction cells generalizing off with
  | nil => rfl
  | cons c cs ih =>
    cases c <;> simp [expected_values, ih]

/-- `get_uint_lenenc` never grows the buffer. -/
lemma get_uint_lenenc_shrinks (b : Nat) (rest rest2 : List Nat) (size : Nat)
    (h : get_uint_lenenc (b :: rest) = some (size, rest2)) : rest2.length ≤ rest.length := by
  unfold get_uint_lenenc at h
  split at h
  · exact Option.noConfusion h
  · split at h
    · split at h
      · simp_all
        omega
      · exact Option.noConfusion h
    · split at h
      · split at h
        · simp_all
          omega
        · exact Option.noConfusion h
      · split at h
        · split at h
          · simp_all
            omega
          · exact Option.noConfusion h
        · simp_all

/-- A successful loop run consumes at least one byte per column. -/
lemma decode_loop_ok_length (cols : List MySqlColumn) (storage buf : List Nat)
    (vs : List (Option (Nat × Nat)))
    (h : decode_with_loop storage cols buf = .ok vs) : cols.length ≤ buf.length := by
  induction cols generalizing buf vs with
  | nil => simp
  | cons c cols ih =>
    cases buf with
    | nil =>
      rw [show decode_with_loop storage (c :: cols) [] = .fatal from rfl] at h
      exact AuxResult.noConfusion h
    | cons b rest =>
      by_cases hb : b = 0xfb
      · subst hb
        rw [decode_loop_null] at h
        cases hr : decode_with_loop storage cols rest with
        | ok ws =>
          have := ih rest ws hr
          simp only [List.length_cons]
          omega
        | fatal => rw [hr] at h; exact AuxResult.noConfusion h
        | err e => rw [hr] at h; exact AuxResult.noConfusion h
      · rw [decode_loop_cell _ _ _ _ _ hb] at h
        cases hg : get_uint_lenenc (b :: rest) with
        | none => rw [hg] at h; exact AuxResult.noConfusion h
        | some p =>
          obtain ⟨size, rest2⟩ := p
          have hshrink := get_uint_lenenc_shrinks b rest rest2 size hg
          rw [hg] at h
          dsimp only at h
          by_cases hov : size > rest2.length
          · rw [if_pos hov] at h
            cases hq : storage[storage.length - rest2.length]? with
            | none => rw [hq] at h; exact AuxResult.noConfusion h
            | some first => rw [hq] at h; exact AuxResult.noConfusion h
          · rw [if_neg hov] at h
            cases hr : decode_with_loop storage cols (rest2.drop size) with
            | ok ws =>
              have hlen := ih (rest2.drop size) ws hr
              simp only [List.length_drop] at hlen
              simp only [List.length_cons]
              omega
            | fatal => rw [hr] at h; exact AuxResult.noConfusion h
            | err e => rw [hr] at h; exact AuxResult.noConfusion h

/-- One-step unfolding of the binary DATE payload decoder on a 4-byte-or-more
slice. -/
lemma decode_date_buf_cons (b0 b1 b2 b3 : Nat) (r : List Nat) :
    decode_date_buf (b0 :: b1 :: b2 :: b3 :: r) = some ⟨b0 + 256 * b1, b2, b3⟩ := rfl

/-- One-step unfolding of the binary DATETIME decoder on a nonempty buffer. -/
lemma datetime_decode_binary_cons (len : Nat) (rest : List Nat) (off : Int) :
    DateTime.decode_binary (len :: rest) off =
      match decode_date_buf rest with
      | none => none
      | some date =>
        if 4 < len then
          match decode_time ((len :: rest).drop 5) with
          | none => none
          | some time => some (date, time, off)
        else some (date, ⟨0, 0, 0, 0⟩, off) := rfl

/-- One-step unfolding of the binary TIMESTAMP decoder on a nonempty
buffer. -/
lemma timestamp_decode_binary_cons (len : Nat) (rest : List Nat) :
    Timestamp.decode_binary (len :: rest) =
      match decode_date_buf rest with
      | none => none
      | some date =>
        if 4 < len then
          match decode_time ((len :: rest).drop 5) with
          | none => none
          | some time => some (date, time)
        else some (date, ⟨0, 0, 0, 0⟩) := rfl

/-! ## Claim theorems -/

/-- C1: for every Timestamp whose broken-down datetime has hour, minute,
second and nanosecond all zero, the MySQL binary encoder appends exactly the
length byte 4 followed by year(u16 LE), month(u8), day(u8) -- no time or
microsecond bytes.  (The all-zero time encodes as the single length byte 0,
which the subsequent `buf.remove(buf.len() - 1 - size_time)` deletes again;
the returned size is 4 + 4 + 0 = 8.) -/
theorem timestamp_encode_date_only (dt : FDateTime) (buf : List Nat)
    (hh : dt.hour = 0) (hm : dt.minute = 0) (hs : dt.sec = 0) (hn : dt.nano = 0) :
    Timestamp.encode_dt dt buf =
      (buf ++ [4, dt.year % 256, dt.year / 256 % 256, dt.mon, dt.day], 8) := by
  obtain ⟨y, mo, d, h, mi, s, n⟩ := dt
  simp only at hh hm hs hn
  subst hh hm hs hn
  simp only [Timestamp.encode_dt, date_time_size_hint, Date.encode, Time.encode, u16_le, u32_le]
  simp
  have e1 : buf ++ [4, 4, y % 256, y / 256 % 256, mo, d] =
      (buf ++ [4]) ++ 4 :: [y % 256, y / 256 % 256, mo, d] := by simp
  have e2 : buf.length + 1 = (buf ++ [4]).length := by simp
  rw [e1, e2, eraseIdx_append_cons]
  rw [eraseIdx_append_cons]
  simp

/-- C1 witness: encoding the all-zero-time timestamp datetime 2024-01-02
00:00:00.000 into an empty buffer yields exactly
`[0x04, 0xE8, 0x07, 0x01, 0x02]`. -/
theorem timestamp_encode_date_only_witness :
    Timestamp.encode_dt ⟨2024, 1, 2, 0, 0, 0, 0⟩ [] =
      ([0x04, 0xE8, 0x07, 0x01, 0x02], 8) :=
  timestamp_encode_date_only ⟨2024, 1, 2, 0, 0, 0, 0⟩ [] rfl rfl rfl rfl

/-- C2: for every well-formed MySQL text row buffer (each cell either the
single byte `0xFB` for NULL or a length-encoded size followed by that many
bytes) and matching column list, `TextRow::decode_with` succeeds, retains the
whole buffer as its snapshot, and returns per column `none` for the `0xFB`
cells and a byte range that, applied to the snapshot, recovers the original
cell bytes byte-for-byte. -/
theorem text_row_roundtrip (cells : List (Option (List Nat))) (cols : List MySqlColumn)
    (hlen : cols.length = cells.length)
    (hsz : ∀ b, some b ∈ cells → b.length < 2 ^ 64) :
    decode_with (encode_row cells) cols =
      .ok (expected_values 0 cells) (encode_row cells) ∧
    (expected_values 0 cells).length = cells.length ∧
    ∀ i : Nat, (cells[i]? = some none → (expected_values 0 cells)[i]? = some none) ∧
      (∀ b, cells[i]? = some (some b) →
        ∃ o, (expected_values 0 cells)[i]? = some (some (o, o + b.length)) ∧
          ((encode_row cells).drop o).take b.length = b) := by
  refine ⟨?_, expected_values_length 0 cells, ?_⟩
  · have hmain := decode_loop_append cells cols [] (encode_row cells) [] hlen hsz (by simp)
    rw [List.append_nil, List.append_nil] at hmain
    rw [show decode_with_loop (encode_row cells) ([] : List MySqlColumn) ([] : List Nat) =
        .ok [] from rfl] at hmain
    rw [Nat.sub_self] at hmain
    unfold decode_with
    rw [hmain]
    simp [AuxResult.cons_all]
  · intro i
    have h := expected_values_recover cells [] [] i
    simp only [List.length_nil, List.nil_append, List.append_nil] at h
    exact h

/-- C2 witness: the buffer `[0xFB, 0x02, 0x34, 0x32]` with two columns
decodes to `[None, Some(2..4)]`, and the range `2..4` applied to the snapshot
yields `"42"` (`[0x34, 0x32]`). -/
theorem text_row_roundtrip_witness :
    decode_with [0xfb, 0x02, 0x34, 0x32] [⟨"a"⟩, ⟨"b"⟩] =
      .ok [none, some (2, 4)] [0xfb, 0x02, 0x34, 0x32] ∧
    (([0xfb, 0x02, 0x34, 0x32] : List Nat).drop 2).take 2 = [0x34, 0x32] :=
  ⟨(text_row_roundtrip [none, some [0x34, 0x32]] [⟨"a"⟩, ⟨"b"⟩] rfl
      (by
        intro b hb
        simp only [List.mem_cons, List.not_mem_nil, or_false, reduceCtorEq, false_or,
          Option.some.injEq] at hb
        subst hb
        decide)).1,
    rfl⟩

/-- C3 counterexample: the buffer `[0x05]` with one column has a cell whose
declared length 5 exceeds the 0 bytes remaining after the length prefix, yet
`decode_with` does not return a Protocol error -- building the diagnostic
message indexes `storage[offset]` with `offset = 1` past the end of the
1-byte snapshot, a panic (`fatal`), so the claim's "returns a Protocol error
(it does not panic)" fails on this buffer. -/
theorem text_row_oversize_no_tail_fatal :
    decode_with [0x05] [⟨"col"⟩] = .fatal ∧
    ∀ e, decode_with [0x05] [⟨"col"⟩] ≠ .err e := by
  refine ⟨rfl, fun e h => ?_⟩
  rw [show decode_with [0x05] [⟨"col"⟩] = .fatal from rfl] at h
  exact TextRowResult.noConfusion h

/-- C3 (amended): for every text-row buffer made of well-formed cells
followed by a cell whose length-encoded declared size exceeds the bytes
remaining after the length prefix, *provided at least one byte remains after
the prefix*, `decode_with` returns a `Protocol` error whose message carries
the declared length, the remaining byte count, and the first remaining
byte. -/
theorem text_row_oversize_protocol (cells : List (Option (List Nat)))
    (cols1 cols2 : List MySqlColumn) (col : MySqlColumn)
    (s first : Nat) (rest : List Nat)
    (hlen : cols1.length = cells.length)
    (hsz : ∀ b, some b ∈ cells → b.length < 2 ^ 64)
    (hs64 : s < 2 ^ 64)
    (hover : rest.length + 1 < s) :
    decode_with (encode_row cells ++ (put_uint_lenenc s ++ (first :: rest)))
        (cols1 ++ col :: cols2) =
      .err (.protocol (text_row_err_msg s (rest.length + 1) first)) := by
  obtain ⟨hh, t2, hput, hne⟩ := put_uint_lenenc_ne_null s
  have hcell : decode_with_loop (encode_row cells ++ (put_uint_lenenc s ++ (first :: rest)))
      (col :: cols2) (put_uint_lenenc s ++ (first :: rest)) =
      .err (.protocol (text_row_err_msg s (rest.length + 1) first)) := by
    rw [hput, List.cons_append, decode_loop_cell _ _ _ _ _ hne]
    rw [show hh :: (t2 ++ (first :: rest)) = put_uint_lenenc s ++ (first :: rest) by
      rw [hput]; rfl]
    rw [get_put_uint_lenenc s hs64]
    dsimp only
    rw [if_pos (by simp only [List.length_cons]; omega)]
    have hidx : (encode_row cells ++ (put_uint_lenenc s ++ (first :: rest))).length -
        (first :: rest).length = (encode_row cells ++ put_uint_lenenc s).length := by
      simp only [List.length_append, List.length_cons]
      omega
    rw [hidx]
    rw [show encode_row cells ++ (put_uint_lenenc s ++ (first :: rest)) =
        (encode_row cells ++ put_uint_lenenc s) ++ (first :: rest) by simp]
    rw [List.getElem?_append_right (Nat.le_refl _), Nat.sub_self]
    simp
  have hmain := decode_loop_append cells cols1 (col :: cols2)
    (encode_row cells ++ (put_uint_lenenc s ++ (first :: rest)))
    (put_uint_lenenc s ++ (first :: rest)) hlen hsz (Nat.le_refl _)
  rw [hcell] at hmain
  unfold decode_with
  rw [hmain]
  rfl

/-- C3 witness: the buffer `[0x05, 0x41, 0x42]` with one column fails with a
Protocol error whose message mentions length 5 and remaining 2 (and the first
byte `0x41`). -/
theorem text_row_oversize_protocol_witness :
    decode_with [0x05, 0x41, 0x42] [⟨"col"⟩] =
      .err (.protocol "text row column length 5 exceeds remaining 2 bytes (first byte: 0x41)") := by
  have h := text_row_oversize_protocol [] [] [] ⟨"col"⟩ 5 0x41 [0x42] rfl
    (by intro b hb; simp at hb) (by decide) (by decide)
  exact h

/-- C4 counterexample: the binary temporal decoders accept the length byte 5,
which is outside `{0, 4, 7, 11}`: the buffer `[0x05, 0xE8, 0x07, 0x01, 0x02,
0x03, 0x04, 0x05]` decodes successfully (to 2024-01-02 03:04:05) for both
DateTime and Timestamp, identically to the valid length byte 7, instead of
failing with a Protocol error as the claim states. -/
theorem temporal_decode_len5_succeeds :
    DateTime.decode_binary [0x05, 0xE8, 0x07, 0x01, 0x02, 0x03, 0x04, 0x05] 0 =
      some (⟨2024, 1, 2⟩, ⟨3, 4, 5, 0⟩, 0) ∧
    DateTime.decode_binary [0x05, 0xE8, 0x07, 0x01, 0x02, 0x03, 0x04, 0x05] 0 =
      DateTime.decode_binary [0x07, 0xE8, 0x07, 0x01, 0x02, 0x03, 0x04, 0x05] 0 ∧
    Timestamp.decode_binary [0x05, 0xE8, 0x07, 0x01, 0x02, 0x03, 0x04, 0x05] =
      some (⟨2024, 1, 2⟩, ⟨3, 4, 5, 0⟩) := by
  decide

/-- C4 (amended): the DateTime/Timestamp binary decoders read the length byte
`L` but never validate it against `{0, 4, 7, 11}`: the date is decoded from
the next 4 bytes whenever they are present (an empty remainder, as for
`L = 0`, yields the zero datetime), the time is decoded whenever `L > 4`, and
microseconds are read whenever the buffer holds them; any length byte with
enough bytes behind it decodes without a Protocol error. -/
theorem temporal_decode_no_length_check (len d0 d1 d2 d3 t0 t1 t2 m0 m1 m2 m3 : Nat) (off : Int) :
    (len ≤ 4 → DateTime.decode_binary [len, d0, d1, d2, d3] off =
        some (⟨d0 + 256 * d1, d2, d3⟩, ⟨0, 0, 0, 0⟩, off)) ∧
    (4 < len → DateTime.decode_binary [len, d0, d1, d2, d3, t0, t1, t2] off =
        some (⟨d0 + 256 * d1, d2, d3⟩, ⟨t0, t1, t2, 0⟩, off)) ∧
    (4 < len → DateTime.decode_binary [len, d0, d1, d2, d3, t0, t1, t2, m0, m1, m2, m3] off =
        some (⟨d0 + 256 * d1, d2, d3⟩,
          ⟨t0, t1, t2, (m0 + 256 * m1 + 65536 * m2 + 16777216 * m3) * 1000⟩, off)) ∧
    DateTime.decode_binary [0] off = some (⟨0, 0, 0⟩, ⟨0, 0, 0, 0⟩, off) ∧
    (len ≤ 4 → Timestamp.decode_binary [len, d0, d1, d2, d3] =
        some (⟨d0 + 256 * d1, d2, d3⟩, ⟨0, 0, 0, 0⟩)) ∧
    (4 < len → Timestamp.decode_binary [len, d0, d1, d2, d3, t0, t1, t2] =
        some (⟨d0 + 256 * d1, d2, d3⟩, ⟨t0, t1, t2, 0⟩)) ∧
    Timestamp.decode_binary [0] = some (⟨0, 0, 0⟩, ⟨0, 0, 0, 0⟩) := by
  refine ⟨fun h => ?_, fun h => ?_, fun h => ?_, rfl, fun h => ?_, fun h => ?_, rfl⟩ <;>
      first
        | rw [datetime_decode_binary_cons, decode_date_buf_cons]
        | rw [timestamp_decode_binary_cons, decode_date_buf_cons]
  all_goals dsimp only
  case refine_1 => rw [if_neg (by omega : ¬ 4 < len)]
  case refine_2 => rw [if_pos h]; rfl
  case refine_3 => rw [if_pos h]; rfl
  case refine_4 => rw [if_neg (by omega : ¬ 4 < len)]
  case refine_5 => rw [if_pos h]; rfl

/-- C4 witness: at length byte 5 with a full date and time payload the
DateTime decoder succeeds. -/
theorem temporal_decode_no_length_check_witness :
    DateTime.decode_binary [0x05, 0xE8, 0x07, 0x01, 0x02, 0x03, 0x04, 0x05] 0 =
      some (⟨2024, 1, 2⟩, ⟨3, 4, 5, 0⟩, 0) :=
  (temporal_decode_no_length_check 5 0xE8 0x07 1 2 3 4 5 0 0 0 0 0).2.1 (by omega)

/-- C5: encoding the DateTime 2024-01-02 03:04:05.000006 (nanosecond
component 6000, i.e. 6 microseconds) yields exactly
`[0x0B, 0xE8, 0x07, 0x01, 0x02, 0x03, 0x04, 0x05, 0x06, 0x00, 0x00, 0x00]`,
and encoding 2024-01-02 00:00:00.000 yields exactly
`[0x04, 0xE8, 0x07, 0x01, 0x02]`, with no embedded length prefixes inside the
payload. -/
theorem datetime_encode_bytes :
    DateTime.encode ⟨2024, 1, 2, 3, 4, 5, 6000⟩ [] =
      ([0x0B, 0xE8, 0x07, 0x01, 0x02, 0x03, 0x04, 0x05, 0x06, 0x00, 0x00, 0x00], 12) ∧
    DateTime.encode ⟨2024, 1, 2, 0, 0, 0, 0⟩ [] = ([0x04, 0xE8, 0x07, 0x01, 0x02], 5) := by
  constructor <;> rfl

/-- C6: on the SQLite `Statements` store, a lookup with `persistent = false`
or with the cache disabled (capacity 0) prepares the statement into the
single scratch slot, replacing (dropping) the previous scratch statement and
leaving the cache untouched; a lookup with `persistent = true` and the SQL
already cached returns the cached statement reset once, keeps it in the
cache, and leaves the scratch slot untouched. -/
theorem statements_get_scratch_and_hit (st : Statements) (q : String) (p : Bool) :
    ((p = false ∨ st.cached.capacity = 0) →
      Statements.get st q p =
        ({ st with temp := some (VirtualStatement.new q false) }, VirtualStatement.new q false)) ∧
    (∀ v, p = true → 0 < st.cached.capacity → lookup_stmt st.cached.entries q = some v →
      (Statements.get st q p).2 = v.reset ∧
      (Statements.get st q p).1.temp = st.temp ∧
      lookup_stmt (Statements.get st q p).1.cached.entries q = some v.reset) := by
  constructor
  · rintro (hp | hcap)
    · subst hp
      rfl
    · have hen : st.cached.is_enabled = false := by
        simp [StatementCache.is_enabled, hcap]
      simp [Statements.get, hen]
  · intro v hp hcap hlook
    subst hp
    have hen : st.cached.is_enabled = true := by
      simp [StatementCache.is_enabled]
      omega
    have hck : st.cached.contains_key q = true := by
      simp [StatementCache.contains_key, hlook]
    refine ⟨?_, ?_, ?_⟩ <;>
      simp [Statements.get, hen, hck, hlook, lookup_stmt]

/-- C6 witness: on a store with capacity 10 holding "SELECT 1", a
non-persistent lookup goes to the scratch slot, and a persistent lookup of
the cached "SELECT 1" returns it reset. -/
theorem statements_get_scratch_and_hit_witness :
    Statements.get ⟨⟨10, [("SELECT 1", ⟨"SELECT 1", true, 0⟩)]⟩, none⟩ "INSERT" false =
      (⟨⟨10, [("SELECT 1", ⟨"SELECT 1", true, 0⟩)]⟩,
          some (VirtualStatement.new "INSERT" false)⟩,
        VirtualStatement.new "INSERT" false) ∧
    (Statements.get ⟨⟨10, [("SELECT 1", ⟨"SELECT 1", true, 0⟩)]⟩, none⟩ "SELECT 1" true).2 =
      VirtualStatement.reset ⟨"SELECT 1", true, 0⟩ :=
  ⟨(statements_get_scratch_and_hit ⟨⟨10, [("SELECT 1", ⟨"SELECT 1", true, 0⟩)]⟩, none⟩
      "INSERT" false).1 (Or.inl rfl),
    ((statements_get_scratch_and_hit ⟨⟨10, [("SELECT 1", ⟨"SELECT 1", true, 0⟩)]⟩, none⟩
      "SELECT 1" true).2 ⟨"SELECT 1", true, 0⟩ rfl (by decide) (by decide)).1⟩

/-- C7: dropping a `ConnectionGuard` with an `auto_close` duration configured
and a connection present takes the connection out of the guard (so it cannot
be returned to the pool) and spawns a task running the connection's `close()`
bounded by that duration. -/
theorem guard_drop_auto_close (g : ConnectionGuard) (d : Nat) (c : Conn)
    (hd : g.auto_close = some d) (hc : g.conn = some c) :
    ConnectionGuard.drop g = ({ g with conn := none }, some (.timeout_close d c)) := by
  obtain ⟨conn, ac⟩ := g
  simp only at hd hc
  subst hd hc
  rfl

/-- C7 witness: a guard holding connection 7 with a 50ms auto-close spawns
`timeout(50ms, close())` and keeps no connection. -/
theorem guard_drop_auto_close_witness :
    ConnectionGuard.drop ⟨some ⟨7⟩, some 50⟩ = (⟨none, some 50⟩, some (.timeout_close 50 ⟨7⟩)) :=
  guard_drop_auto_close ⟨some ⟨7⟩, some 50⟩ 50 ⟨7⟩ rfl rfl

/-- C8 counterexample: `with_scale` narrowing 1.125 (int 1125, scale 3) to
scale 2 yields 1.12 (truncation), while half-away-from-zero rounding as the
claim states would yield 1.13 -- the two disagree at this input. -/
theorem with_scale_truncates_at_1125 :
    Decimal.with_scale ⟨⟨1125, 3⟩⟩ 2 = ⟨⟨112, 2⟩⟩ ∧
    spec_half_away_narrow ⟨1125, 3⟩ 2 = ⟨113, 2⟩ ∧
    Decimal.with_scale ⟨⟨1125, 3⟩⟩ 2 ≠ ⟨spec_half_away_narrow ⟨1125, 3⟩ 2⟩ := by
  decide

/-- C8 (amended): narrowing the scale with `with_scale` (new scale strictly
lower than the current scale) *truncates* the dropped digits toward zero
rather than rounding them: the result keeps the sign of the input, its
magnitude times `10^d` never exceeds the input's magnitude, and it is within
one unit in the last place of it. -/
theorem with_scale_narrowing_truncates (m s n : Int) (hm : m ≠ 0) (hn : n < s) :
    (Decimal.with_scale ⟨⟨m, s⟩⟩ n).val.scale = n ∧
    (Decimal.with_scale ⟨⟨m, s⟩⟩ n).val.int_val.natAbs * 10 ^ (s - n).toNat ≤ m.natAbs ∧
    m.natAbs < ((Decimal.with_scale ⟨⟨m, s⟩⟩ n).val.int_val.natAbs + 1) * 10 ^ (s - n).toNat ∧
    (0 ≤ m → 0 ≤ (Decimal.with_scale ⟨⟨m, s⟩⟩ n).val.int_val) ∧
    (m ≤ 0 → (Decimal.with_scale ⟨⟨m, s⟩⟩ n).val.int_val ≤ 0) := by
  have hlt : ¬ s < n := by omega
  have hres : Decimal.with_scale ⟨⟨m, s⟩⟩ n =
      ⟨⟨m.tdiv ((10 : Int) ^ (s - n).toNat), n⟩⟩ := by
    simp [Decimal.with_scale, BigDecimal.with_scale, hm, hn, hlt]
  rw [hres]
  set d : Nat := (s - n).toNat with hd
  have hk : 0 < 10 ^ d := Nat.pos_pow_of_pos d (by omega)
  have habs : (m.tdiv ((10 : Int) ^ d)).natAbs = m.natAbs / 10 ^ d := by
    rw [Int.natAbs_tdiv]
    congr 1
    rw [Int.natAbs_pow]
    rfl
  refine ⟨rfl, ?_, ?_, ?_, ?_⟩
  · rw [habs]
    exact Nat.div_mul_le_self _ _
  · rw [habs]
    calc m.natAbs = 10 ^ d * (m.natAbs / 10 ^ d) + m.natAbs % 10 ^ d :=
          (Nat.div_add_mod _ _).symm
    _ < 10 ^ d * (m.natAbs / 10 ^ d) + 10 ^ d :=
          Nat.add_lt_add_left (Nat.mod_lt _ hk) _
    _ = (m.natAbs / 10 ^ d + 1) * 10 ^ d := by ring
  · intro h0
    exact Int.tdiv_nonneg h0 (by positivity)
  · intro h0
    show m.tdiv ((10 : Int) ^ d) ≤ 0
    have h1 : 0 ≤ (-m).tdiv ((10 : Int) ^ d) := Int.tdiv_nonneg (by omega) (by positivity)
    have h2 : (-m).tdiv ((10 : Int) ^ d) = -(m.tdiv ((10 : Int) ^ d)) := Int.neg_tdiv m _
    omega

/-- C8 witness: the truncation bounds instantiated at 1.125 narrowed to
scale 2. -/
theorem with_scale_narrowing_truncates_witness :
    (Decimal.with_scale ⟨⟨1125, 3⟩⟩ 2).val.scale = 2 ∧
    (Decimal.with_scale ⟨⟨1125, 3⟩⟩ 2).val.int_val.natAbs * 10 ^ ((3 : Int) - 2).toNat ≤
      (1125 : Int).natAbs ∧
    (1125 : Int).natAbs <
      ((Decimal.with_scale ⟨⟨1125, 3⟩⟩ 2).val.int_val.natAbs + 1) * 10 ^ ((3 : Int) - 2).toNat ∧
    (0 ≤ (1125 : Int) → 0 ≤ (Decimal.with_scale ⟨⟨1125, 3⟩⟩ 2).val.int_val) ∧
    ((1125 : Int) ≤ 0 → (Decimal.with_scale ⟨⟨1125, 3⟩⟩ 2).val.int_val ≤ 0) :=
  with_scale_narrowing_truncates 1125 3 2 (by decide) (by decide)

/-- C9: whenever a SQLite `ConnectionState` is dropped, the drop trace is
exactly the release of every held statement (cached ones and the scratch one)
followed by the destruction of the connection handle: every statement release
happens strictly before the handle drop, and nothing is released after it. -/
theorem connection_state_drop_order (cs : ConnectionState) :
    cs.drop_trace =
      cs.statements.all_statements.map DropEvent.release_stmt ++
        [DropEvent.drop_handle cs.handle] ∧
    cs.drop_trace.getLast? = some (DropEvent.drop_handle cs.handle) ∧
    cs.drop_trace.dropLast = cs.statements.all_statements.map DropEvent.release_stmt := by
  have h : (cs.statements.clear).all_statements = [] := by
    simp [Statements.clear, Statements.all_statements, StatementCache.clear]
  refine ⟨?_, ?_, ?_⟩ <;>
    simp [ConnectionState.drop_trace, h, Statements.clear_events]

/-- C10: `TextRow::decode_with` reads `buf[0]` for each column with no
emptiness check before the `0xFB` NULL test: with a non-empty column list and
an exhausted buffer it panics (`fatal`) rather than returning a Protocol
error, and any successful run necessarily had at least one byte of buffer per
column. -/
theorem text_row_indexes_without_check :
    (∀ cols : List MySqlColumn, cols ≠ [] → decode_with [] cols = .fatal) ∧
    (∀ e, decode_with [] [⟨"col"⟩] ≠ .err e) ∧
    (∀ (buf : List Nat) (cols : List MySqlColumn) vs st,
      decode_with buf cols = .ok vs st → cols.length ≤ buf.length) := by
  refine ⟨?_, ?_, ?_⟩
  · intro cols hne
    cases cols with
    | nil => exact absurd rfl hne
    | cons c cs => rfl
  · intro e h
    rw [show decode_with [] [⟨"col"⟩] = .fatal from rfl] at h
    exact TextRowResult.noConfusion h
  · intro buf cols vs st h
    unfold decode_with at h
    cases hr : decode_with_loop buf cols buf with
    | ok ws => exact decode_loop_ok_length cols buf buf ws hr
    | fatal => rw [hr] at h; exact TextRowResult.noConfusion h
    | err e => rw [hr] at h; exact TextRowResult.noConfusion h

/-- C10 witness: one column against the empty buffer panics, and the
successful single-NULL decode consumed its one byte. -/
theorem text_row_indexes_without_check_witness :
    decode_with [] [⟨"col"⟩] = .fatal ∧
    ([⟨"col"⟩] : List MySqlColumn).length ≤ ([0xfb] : List Nat).length :=
  ⟨text_row_indexes_without_check.1 [⟨"col"⟩] (by simp),
    text_row_indexes_without_check.2.2 [0xfb] [⟨"col"⟩] [none] [0xfb] rfl⟩

end Rbdc
